import Mathlib

/-!
# consul-importer: the prefix-filter-and-rewrite import engine

A shallow embedding of `handson/consul-importer/main.go`.

* Go strings are byte sequences, so `GoString` is a list of bytes.
* `strings.HasPrefix` and `strings.TrimLeft` are the Go standard library
  functions the program calls; they are embedded from their Go definitions.
* The Consul client is an external collaborator.  It is embedded as an
  arbitrary state type `σ` together with the operations the program calls on
  it (`get`, `put`), each returning the next state and the outcome.
* Everything the program does that is visible from outside (the `Put` calls
  and the `log.Printf` lines of the import loop) is recorded in a trace.
-/

set_option autoImplicit false

namespace ConsulImporter

/-! ## Strings -/

/-- One byte of a Go string. -/
abbrev Byte := Fin 256

/-- Go `string`: an immutable sequence of bytes. -/
abbrev GoString := List Byte

/-- UTF-8 bytes of a string literal, the way the Go compiler stores it. -/
def utf8 (s : String) : GoString :=
  s.data.flatMap (fun c => (String.utf8EncodeChar c).map (fun b => b.val))

/-- The byte `'/'`. -/
def slash : Byte := 47

/-- Go `strings.HasPrefix`:
`len(s) >= len(prefix) && s[:len(prefix)] == prefix`. -/
def HasPrefix (s pre : GoString) : Bool :=
  decide (s.length ≥ pre.length) && (s.take pre.length == pre)

/-- Go `strings.trimLeftByte`:
`for len(s) > 0 && s[0] == c { s = s[1:] }; return s`. -/
def trimLeftByte : GoString → Byte → GoString
  | [], _ => []
  | b :: s, c => if b = c then trimLeftByte s c else b :: s

/-- Go `strings.TrimLeft(s, cutset)` for a cutset of one ASCII byte `c`, the
only way the program calls it (`cutset = "/"`): when `s == ""` it returns `s`,
otherwise it is `trimLeftByte(s, c)`. -/
def TrimLeft (s : GoString) (c : Byte) : GoString :=
  if s = [] then s else trimLeftByte s c

/-! ## Data model -/

/-- Go `type KVExport struct { Key string; Value string }`. -/
structure KVExport where
  Key : GoString
  Value : GoString
  deriving DecidableEq, Repr

/-! ## Import: selection -/

/-- Condition of the filter loop of `importToLocal`:
`fromPrefix == "" || strings.HasPrefix(item.Key, fromPrefix)`. -/
def inScope (fromPrefix : GoString) (item : KVExport) : Bool :=
  decide (fromPrefix = []) || HasPrefix item.Key fromPrefix

/-- Filter loop of `importToLocal`: `filtered := []KVExport{}`, then every
item of `data` in scope is appended to `filtered`.  The accumulator is the
slice built so far. -/
def filterLoop (fromPrefix : GoString) : List KVExport → List KVExport → List KVExport
  | [], filtered => filtered
  | item :: data, filtered =>
    if inScope fromPrefix item then filterLoop fromPrefix data (filtered ++ [item])
    else filterLoop fromPrefix data filtered

/-! ## Import: rewriting -/

/-- Step 1 of the import loop body: `rewrittenKey := originalKey`, and the
prefix is sliced off when `fromPrefix != ""` and the key starts with it. -/
def stripFrom (fromPrefix originalKey : GoString) : GoString :=
  if fromPrefix ≠ [] ∧ HasPrefix originalKey fromPrefix = true then
    originalKey.drop fromPrefix.length
  else originalKey

/-- Step 2 of the import loop body: when `toPrefix != ""` the key becomes
`strings.TrimLeft(toPrefix, "/") + rewrittenKey`. -/
def applyTo (toPrefix rewrittenKey : GoString) : GoString :=
  if toPrefix ≠ [] then TrimLeft toPrefix slash ++ rewrittenKey else rewrittenKey

/-- Steps 1 to 4 of the import loop body, up to the `Put` call: `none` when
the body executes `continue` (step 3, the key is empty after steps 1 and 2),
otherwise the key handed to `Put` (step 4 strips leading slashes). -/
def rewriteKey (fromPrefix toPrefix originalKey : GoString) : Option GoString :=
  let rewrittenKey := applyTo toPrefix (stripFrom fromPrefix originalKey)
  if rewrittenKey = [] then none
  else some (TrimLeft rewrittenKey slash)

/-! ## Import: the loop with its effects -/

/-- What one run of the import loop does that is visible from outside. -/
inductive Event where
  /-- `client.KV().Put(&api.KVPair{Key: key, Value: []byte(value)}, nil)` -/
  | put (key value : GoString)
  /-- `log.Printf("Skipping key '%s' because it becomes an empty key", originalKey)` -/
  | logSkip (originalKey : GoString)
  /-- `log.Printf("[%d/%d] Failed: %s → %s : %v", i+1, len(filtered), ...)` -/
  | logFailed (pos total : Nat) (originalKey rewrittenKey : GoString)
  /-- `log.Printf("[%d/%d] %s → %s", i+1, len(filtered), ...)` -/
  | logOk (pos total : Nat) (originalKey rewrittenKey : GoString)
  deriving DecidableEq, Repr

/-- The `Put` operation of the key-value backend: from a backend state, a key
and a value it gives the next backend state and whether `err != nil`. -/
abbrev PutOp (σ : Type) := σ → GoString → GoString → σ × Bool

/-- The loop `for i, item := range filtered` of `importToLocal`, from index
`i` on, `total = len(filtered)`.  Returns the backend state after the loop and
the events in the order they happen. -/
def importLoop {σ : Type} (kvPut : PutOp σ) (fromPrefix toPrefix : GoString) (total : Nat) :
    Nat → List KVExport → σ → σ × List Event
  | _, [], s => (s, [])
  | i, item :: rest, s =>
    match rewriteKey fromPrefix toPrefix item.Key with
    | none =>
      let r := importLoop kvPut fromPrefix toPrefix total (i + 1) rest s
      (r.1, Event.logSkip item.Key :: r.2)
    | some rewrittenKey =>
      let p := kvPut s rewrittenKey item.Value
      let r := importLoop kvPut fromPrefix toPrefix total (i + 1) rest p.1
      (r.1, Event.put rewrittenKey item.Value ::
        (if p.2 then Event.logFailed (i + 1) total item.Key rewrittenKey
         else Event.logOk (i + 1) total item.Key rewrittenKey) :: r.2)

/-- Go `importToLocal(fromPrefix, toPrefix)` once the client exists and
`consul_export.json` has been read and parsed into `data` (each of those three
steps ends the process with `log.Fatalf` when it fails): the filter loop, then
the import loop over `filtered`. -/
def importToLocal {σ : Type} (kvPut : PutOp σ) (s : σ) (data : List KVExport)
    (fromPrefix toPrefix : GoString) : σ × List Event :=
  let filtered := filterLoop fromPrefix data []
  importLoop kvPut fromPrefix toPrefix filtered.length 0 filtered s

/-- The `Put` calls of a trace, in order, as (key, value) pairs. -/
def putCalls : List Event → List (GoString × GoString)
  | [] => []
  | Event.put k v :: es => (k, v) :: putCalls es
  | _ :: es => putCalls es

/-! ## Backup and export -/

/-- What `client.KV().Get(key, nil)` returns, as the program tells the cases
apart: `err != nil`; `err == nil` and `kv == nil` (the key does not exist);
`err == nil` and `kv != nil`, with `kv.Value`. -/
inductive GetResult where
  | error
  | notFound
  | found (value : GoString)
  deriving DecidableEq, Repr

/-- The `Get` operation of the key-value backend: from a backend state and a
key it gives the next backend state and the result of the call. -/
abbrev GetOp (σ : Type) := σ → GoString → σ × GetResult

/-! ### Writing the snapshot: `json.MarshalIndent` -/

/-- Go `utf8.DecodeRuneInString(s)` as the JSON encoder uses its result: `none`
when it returns `(RuneError, 1)`, that is when the bytes at the front of `s` are
not a valid UTF-8 encoding; otherwise `some size`, the number of bytes of the
encoding at the front of `s` (`some 0` for the empty string).  The lead byte
selects the size and the accepted range of the second byte (the tables `first`
and `acceptRanges`); the other bytes must be continuation bytes `0x80..0xBF`. -/
def DecodeRuneInString : GoString → Option Nat
  | [] => some 0
  | s0 :: rest =>
    if s0.val < 0x80 then some 1
    else if s0.val < 0xC2 then none
    else if s0.val < 0xE0 then
      match rest with
      | s1 :: _ => if 0x80 ≤ s1.val ∧ s1.val ≤ 0xBF then some 2 else none
      | [] => none
    else if s0.val < 0xF0 then
      match rest with
      | s1 :: s2 :: _ =>
        if (if s0.val = 0xE0 then 0xA0 else 0x80) ≤ s1.val
            ∧ s1.val ≤ (if s0.val = 0xED then 0x9F else 0xBF) then
          if 0x80 ≤ s2.val ∧ s2.val ≤ 0xBF then some 3 else none
        else none
      | _ => none
    else if s0.val < 0xF5 then
      match rest with
      | s1 :: s2 :: s3 :: _ =>
        if (if s0.val = 0xF0 then 0x90 else 0x80) ≤ s1.val
            ∧ s1.val ≤ (if s0.val = 0xF4 then 0x8F else 0xBF) then
          if 0x80 ≤ s2.val ∧ s2.val ≤ 0xBF then
            if 0x80 ≤ s3.val ∧ s3.val ≤ 0xBF then some 4 else none
          else none
        else none
      | _ => none
    else none

/-- The loop of the string encoder of Go `encoding/json` over `s`, giving the
string that the written JSON text denotes (what a JSON parser reads back).
`pending` is the number of bytes still to copy of the encoding the loop is
stepping over (`i += size`).  At the start of a step the encoder writes a byte
below `0x80` as itself or as an escape of itself (`size` 1); at any other byte
it calls `utf8.DecodeRuneInString`, and on `(RuneError, 1)` it writes the
escape of U+FFFD (the bytes `EF BF BD` once parsed) and advances by one byte,
otherwise it keeps the `size` bytes of the encoding. -/
def jsonStringLoop : Nat → GoString → GoString
  | _, [] => []
  | pending + 1, b :: s => b :: jsonStringLoop pending s
  | 0, b :: s =>
    match DecodeRuneInString (b :: s) with
    | none => 0xEF :: 0xBF :: 0xBD :: jsonStringLoop 0 s
    | some size => b :: jsonStringLoop (size - 1) s

/-- The string denoted by the JSON text that `encoding/json` writes for `s`. -/
def jsonString (s : GoString) : GoString := jsonStringLoop 0 s

/-- A record as the written JSON object `{"key": ..., "value": ...}` denotes
it. -/
def jsonRecord (r : KVExport) : KVExport :=
  KVExport.mk (jsonString r.Key) (jsonString r.Value)

/-- Go `json.MarshalIndent(export, "", "  ")` on a `[]KVExport` (it cannot fail
on this type), the bytes being represented by the array of records they
denote: one object per element of the slice, in order. -/
def MarshalIndent (exported : List KVExport) : List KVExport :=
  exported.map jsonRecord

/-- The steps at which a run ends the process through `log.Fatalf`. -/
inductive Fatal where
  | createClient
  | listKeys
  | writeFile
  deriving DecidableEq, Repr

/-- How a backup or export run ends: the process is terminated by
`log.Fatalf`, or the run reaches its last line having written `snapshot`, the
records of the marshalled JSON array, to the file and printed
`count = len(export)`. -/
inductive Outcome where
  | fatal (step : Fatal)
  | completed (snapshot : List KVExport) (count : Nat)
  deriving DecidableEq, Repr

/-- The loop `for _, key := range keys` shared (as two identical copies) by
`backupLocal` and `exportStaging`; `exported` is the slice `export` built so
far.  Returns the backend state, the slice after the loop, and what each
`Get` call returned, in call order. -/
def fetchLoop {σ : Type} (kvGet : GetOp σ) :
    List GoString → σ → List KVExport → (σ × List KVExport) × List GetResult
  | [], s, exported => ((s, exported), [])
  | key :: keys, s, exported =>
    let g := kvGet s key
    let r := fetchLoop kvGet keys g.1
      (match g.2 with
       | GetResult.error => exported
       | GetResult.notFound => exported
       | GetResult.found value => exported ++ [KVExport.mk key value])
    (r.1, g.2 :: r.2)

/-- Go `backupLocal()`.  `newClient` is the result of creating the client
(`none` when `err != nil`), `kvKeys` the result of `client.KV().Keys("", "",
nil)`, `writeErr` whether `os.WriteFile` of the timestamped file fails.  The
file holds `data`, the marshalled `export` slice. -/
def backupLocal {σ : Type} (newClient : Option σ) (kvKeys : σ → σ × Option (List GoString))
    (kvGet : GetOp σ) (writeErr : Bool) : Outcome :=
  match newClient with
  | none => Outcome.fatal Fatal.createClient
  | some s0 =>
    match kvKeys s0 with
    | (_, none) => Outcome.fatal Fatal.listKeys
    | (s1, some keys) =>
      let exported := (fetchLoop kvGet keys s1 []).1.2
      let data := MarshalIndent exported
      if writeErr then Outcome.fatal Fatal.writeFile
      else Outcome.completed data exported.length

/-- Go `exportStaging()`: the same steps against the staging client, the file
being `consul_export.json`. -/
def exportStaging {σ : Type} (newClient : Option σ) (kvKeys : σ → σ × Option (List GoString))
    (kvGet : GetOp σ) (writeErr : Bool) : Outcome :=
  match newClient with
  | none => Outcome.fatal Fatal.createClient
  | some s0 =>
    match kvKeys s0 with
    | (_, none) => Outcome.fatal Fatal.listKeys
    | (s1, some keys) =>
      let exported := (fetchLoop kvGet keys s1 []).1.2
      let data := MarshalIndent exported
      if writeErr then Outcome.fatal Fatal.writeFile
      else Outcome.completed data exported.length

/-- What the `Get` calls of a backup or export run over the listing `keys`
return, in call order, from backend state `s`. -/
def getResults {σ : Type} (kvGet : GetOp σ) (keys : List GoString) (s : σ) : List GetResult :=
  (fetchLoop kvGet keys s []).2

/-! ## The destination store as a map -/

/-- Modelled from the spec: the destination store of the key-value backend,
which is not part of the repository, as a map from key to value. -/
abbrev Store := GoString → Option GoString

/-- Modelled from the spec: upsert, "a write operation that creates the key if
absent or overwrites its value if present". -/
def upsert (st : Store) (key value : GoString) : Store :=
  fun k => if k = key then some value else st k

/-- Modelled from the spec: `Put` against a `Store`.  The backend state is the
store and the number of `Put` calls made so far; `fails n` tells whether call
number `n` fails.  A failing call returns an error and leaves the store as it
is, a successful one is an upsert. -/
def storePut (fails : Nat → Bool) : PutOp (Store × Nat) :=
  fun s key value =>
    if fails s.2 then ((s.1, s.2 + 1), true)
    else ((upsert s.1 key value, s.2 + 1), false)

/-- The store after an import of `data` into `st` in which `Put` call number
`n` fails when `fails n`. -/
def importInto (fails : Nat → Bool) (st : Store) (data : List KVExport)
    (fromPrefix toPrefix : GoString) : Store :=
  (importToLocal (storePut fails) (st, 0) data fromPrefix toPrefix).1.1

/-! ## The rewrite contract in the words of the specification -/

/-- Steps 3 to 5 of the rewrite contract for a key whose remainder after
`fromPrefix` is `rest`: `pre` is `toPrefix` without its leading `/` bytes; the
record is skipped (`none`) when `pre ++ rest` is empty, otherwise the
destination is `pre ++ rest` without its leading `/` bytes. -/
def specDestination (toPrefix rest : GoString) : Option GoString :=
  let pre := toPrefix.dropWhile (fun b => b = slash)
  if pre ++ rest = [] then none
  else some ((pre ++ rest).dropWhile (fun b => b = slash))

/-! ## Derived notions used to state the properties -/

/-- The (destination key, value) pairs of the records of `items` that are not
skipped, in order: what the import loop is expected to hand to `Put`. -/
def destPairs (fromPrefix toPrefix : GoString) (items : List KVExport) :
    List (GoString × GoString) :=
  items.filterMap (fun r => (rewriteKey fromPrefix toPrefix r.Key).map (fun k => (k, r.Value)))

/-- Upserts of a list of (key, value) pairs into a store, first to last. -/
def applyPuts : List (GoString × GoString) → Store → Store
  | [], st => st
  | p :: ps, st => applyPuts ps (upsert st p.1 p.2)

/-- The record the fetch loop appends for a key and the result of its `Get`,
if any. -/
def recordOf (p : GoString × GetResult) : Option KVExport :=
  match p.2 with
  | GetResult.found value => some (KVExport.mk p.1 value)
  | _ => none

/-- A record seen as a listed key together with a successful `Get` result. -/
def fetched (r : KVExport) : GoString × GetResult := (r.Key, GetResult.found r.Value)

/-- A backend for examples: `Get` of the key `a` fails with an error, every
other key exists with value `v`. -/
def getFailsOnA : GetOp Unit :=
  fun u key => (u, if key = utf8 "a" then GetResult.error else GetResult.found (utf8 "v"))

/-! ## Lemmas on the string functions -/

theorem trimLeftByte_eq_dropWhile (s : GoString) (c : Byte) :
    trimLeftByte s c = s.dropWhile (fun b => b = c) := by
  induction s with
  | nil => rfl
  | cons b s ih =>
    by_cases h : b = c
    · simp [trimLeftByte, List.dropWhile, h, ← ih]
    · simp [trimLeftByte, List.dropWhile, h]

theorem TrimLeft_eq_dropWhile (s : GoString) (c : Byte) :
    TrimLeft s c = s.dropWhile (fun b => b = c) := by
  unfold TrimLeft
  split
  · next h => subst h; rfl
  · exact trimLeftByte_eq_dropWhile s c

theorem HasPrefix_iff (s pre : GoString) : HasPrefix s pre = true ↔ pre <+: s := by
  unfold HasPrefix
  rw [List.prefix_iff_eq_take]
  constructor
  · intro h
    simp only [Bool.and_eq_true, decide_eq_true_eq, beq_iff_eq] at h
    exact h.2.symm
  · intro h
    simp only [Bool.and_eq_true, decide_eq_true_eq, beq_iff_eq]
    refine ⟨?_, h.symm⟩
    have := congrArg List.length h
    simp only [List.length_take] at this
    omega

theorem HasPrefix_append (pre rest : GoString) : HasPrefix (pre ++ rest) pre = true :=
  (HasPrefix_iff _ _).2 (List.prefix_append pre rest)

theorem inScope_iff (fromPrefix : GoString) (item : KVExport) :
    inScope fromPrefix item = true ↔ (fromPrefix = [] ∨ fromPrefix <+: item.Key) := by
  unfold inScope
  rw [Bool.or_eq_true, decide_eq_true_eq, HasPrefix_iff]

theorem inScope_iff_starts (fromPrefix : GoString) (item : KVExport) :
    inScope fromPrefix item = true ↔ fromPrefix <+: item.Key := by
  rw [inScope_iff]
  constructor
  · rintro (h | h)
    · subst h; exact List.nil_prefix
    · exact h
  · exact Or.inr

theorem dropWhile_slash_eq_nil_iff (s : GoString) :
    s.dropWhile (fun b => decide (b = slash)) = [] ↔ ∀ b ∈ s, b = slash := by
  induction s with
  | nil => simp
  | cons b s ih =>
    by_cases h : b = slash
    · simp [List.dropWhile, h, ih]
    · simp [List.dropWhile, h]

theorem dropWhile_slash_head (s : GoString) :
    (s.dropWhile (fun b => decide (b = slash))).head? ≠ some slash := by
  induction s with
  | nil => simp
  | cons b s ih =>
    by_cases h : b = slash
    · simpa [List.dropWhile, h] using ih
    · simp [List.dropWhile, h]

/-! ## Lemmas on selection and rewriting -/

theorem filterLoop_eq (fromPrefix : GoString) (data filtered : List KVExport) :
    filterLoop fromPrefix data filtered = filtered ++ data.filter (inScope fromPrefix) := by
  induction data generalizing filtered with
  | nil => simp [filterLoop]
  | cons item data ih =>
    by_cases h : inScope fromPrefix item = true
    · simp [filterLoop, h, ih]
    · simp [filterLoop, h, ih]

theorem stripFrom_append (fromPrefix rest : GoString) :
    stripFrom fromPrefix (fromPrefix ++ rest) = rest := by
  unfold stripFrom
  split
  · simp
  · next h =>
    have : fromPrefix = [] := by
      by_contra hne
      exact h ⟨hne, HasPrefix_append _ _⟩
    subst this
    rfl

theorem applyTo_eq (toPrefix rewrittenKey : GoString) :
    applyTo toPrefix rewrittenKey
      = toPrefix.dropWhile (fun b => b = slash) ++ rewrittenKey := by
  unfold applyTo
  split
  · rw [TrimLeft_eq_dropWhile]
  · next h =>
    have : toPrefix = [] := by simpa using h
    subst this
    rfl

theorem rewriteKey_append (fromPrefix toPrefix rest : GoString) :
    rewriteKey fromPrefix toPrefix (fromPrefix ++ rest) = specDestination toPrefix rest := by
  simp only [rewriteKey, specDestination, stripFrom_append, applyTo_eq, TrimLeft_eq_dropWhile]

theorem rewriteKey_eq_none_iff (fromPrefix toPrefix rest : GoString) :
    rewriteKey fromPrefix toPrefix (fromPrefix ++ rest) = none
      ↔ ((∀ b ∈ toPrefix, b = slash) ∧ rest = []) := by
  rw [rewriteKey_append]
  unfold specDestination
  simp only [List.append_eq_nil, dropWhile_slash_eq_nil_iff]
  split
  · next h => simpa using h
  · next h => simpa using h

theorem rewriteKey_head (fromPrefix toPrefix key dest : GoString)
    (h : rewriteKey fromPrefix toPrefix key = some dest) : dest.head? ≠ some slash := by
  unfold rewriteKey at h
  simp only at h
  split at h
  · cases h
  · cases h
    rw [TrimLeft_eq_dropWhile]
    exact dropWhile_slash_head _

/-! ## Lemmas on the import loop -/

theorem putCalls_importLoop {σ : Type} (kvPut : PutOp σ) (fromPrefix toPrefix : GoString)
    (total : Nat) (items : List KVExport) (i : Nat) (s : σ) :
    putCalls (importLoop kvPut fromPrefix toPrefix total i items s).2
      = destPairs fromPrefix toPrefix items := by
  induction items generalizing i s with
  | nil => rfl
  | cons item rest ih =>
    unfold importLoop
    cases h : rewriteKey fromPrefix toPrefix item.Key with
    | none =>
      simp only [putCalls, destPairs, List.filterMap_cons, h, Option.map_none']
      exact ih _ _
    | some k =>
      by_cases hp : (kvPut s k item.Value).2 = true
      · simp only [putCalls, destPairs, List.filterMap_cons, h, Option.map_some', hp, if_true]
        exact congrArg _ (ih _ _)
      · simp only [putCalls, destPairs, List.filterMap_cons, h, Option.map_some', hp]
        exact congrArg _ (ih _ _)

theorem putCalls_importToLocal {σ : Type} (kvPut : PutOp σ) (s : σ) (data : List KVExport)
    (fromPrefix toPrefix : GoString) :
    putCalls (importToLocal kvPut s data fromPrefix toPrefix).2
      = destPairs fromPrefix toPrefix (data.filter (inScope fromPrefix)) := by
  unfold importToLocal
  simp only [putCalls_importLoop, filterLoop_eq, List.nil_append]

/-! ## Lemmas on the store -/

theorem applyPuts_congr (ps : List (GoString × GoString)) (st₁ st₂ : Store)
    (h : ∀ k, (∀ p ∈ ps, p.1 ≠ k) → st₁ k = st₂ k) :
    applyPuts ps st₁ = applyPuts ps st₂ := by
  induction ps generalizing st₁ st₂ with
  | nil =>
    funext k
    exact h k (by simp)
  | cons p ps ih =>
    unfold applyPuts
    apply ih
    intro k hk
    unfold upsert
    by_cases hkp : k = p.1
    · simp [hkp]
    · simp only [hkp, if_false]
      apply h
      intro q hq
      rcases List.mem_cons.1 hq with rfl | hq
      · exact fun e => hkp e.symm
      · exact hk q hq

theorem importLoop_storePut_ok (fromPrefix toPrefix : GoString) (total : Nat)
    (items : List KVExport) (i : Nat) (st : Store) (n : Nat) :
    (importLoop (storePut (fun _ => false)) fromPrefix toPrefix total i items (st, n)).1.1
      = applyPuts (destPairs fromPrefix toPrefix items) st := by
  induction items generalizing i st n with
  | nil => rfl
  | cons item rest ih =>
    unfold importLoop
    cases h : rewriteKey fromPrefix toPrefix item.Key with
    | none =>
      simp only [destPairs, List.filterMap_cons, h, Option.map_none']
      exact ih _ _ _
    | some k =>
      simp only [destPairs, List.filterMap_cons, h, Option.map_some', applyPuts, storePut]
      exact ih _ _ _

theorem importLoop_storePut_untouched (fails : Nat → Bool) (fromPrefix toPrefix : GoString)
    (total : Nat) (items : List KVExport) (i : Nat) (st : Store) (n : Nat) (k : GoString)
    (hk : ∀ p ∈ destPairs fromPrefix toPrefix items, p.1 ≠ k) :
    (importLoop (storePut fails) fromPrefix toPrefix total i items (st, n)).1.1 k = st k := by
  induction items generalizing i st n with
  | nil => rfl
  | cons item rest ih =>
    unfold importLoop
    cases h : rewriteKey fromPrefix toPrefix item.Key with
    | none =>
      simp only [destPairs, List.filterMap_cons, h, Option.map_none'] at hk
      exact ih _ _ _ hk
    | some d =>
      simp only [destPairs, List.filterMap_cons, h, Option.map_some', List.mem_cons,
        forall_eq_or_imp] at hk
      simp only [storePut]
      by_cases hf : fails n = true
      · simp only [hf, if_true]
        exact ih _ _ _ hk.2
      · simp only [hf]
        rw [ih _ _ _ hk.2]
        unfold upsert
        have : k ≠ d := fun e => hk.1 e.symm
        simp [this]

theorem importInto_ok (st : Store) (data : List KVExport) (fromPrefix toPrefix : GoString) :
    importInto (fun _ => false) st data fromPrefix toPrefix
      = applyPuts (destPairs fromPrefix toPrefix (data.filter (inScope fromPrefix))) st := by
  unfold importInto importToLocal
  rw [importLoop_storePut_ok, filterLoop_eq, List.nil_append]

theorem importInto_untouched (fails : Nat → Bool) (st : Store) (data : List KVExport)
    (fromPrefix toPrefix k : GoString)
    (hk : ∀ p ∈ destPairs fromPrefix toPrefix (data.filter (inScope fromPrefix)), p.1 ≠ k) :
    importInto fails st data fromPrefix toPrefix k = st k := by
  unfold importInto importToLocal
  rw [filterLoop_eq, List.nil_append]
  exact importLoop_storePut_untouched fails fromPrefix toPrefix _ _ 0 st 0 k hk

/-! ## Lemmas on the fetch loop -/

theorem fetchLoop_results_acc {σ : Type} (kvGet : GetOp σ) (keys : List GoString) (s : σ)
    (exported : List KVExport) :
    (fetchLoop kvGet keys s exported).2 = (fetchLoop kvGet keys s []).2 := by
  induction keys generalizing s exported with
  | nil => rfl
  | cons key keys ih =>
    simp only [fetchLoop]
    rw [ih, ih (kvGet s key).1 (match (kvGet s key).2 with
       | GetResult.error => []
       | GetResult.notFound => []
       | GetResult.found value => [] ++ [KVExport.mk key value])]

theorem getResults_cons {σ : Type} (kvGet : GetOp σ) (key : GoString) (keys : List GoString)
    (s : σ) :
    getResults kvGet (key :: keys) s = (kvGet s key).2 :: getResults kvGet keys (kvGet s key).1 := by
  unfold getResults
  simp only [fetchLoop]
  rw [fetchLoop_results_acc]

theorem getResults_length {σ : Type} (kvGet : GetOp σ) (keys : List GoString) (s : σ) :
    (getResults kvGet keys s).length = keys.length := by
  induction keys generalizing s with
  | nil => rfl
  | cons key keys ih => rw [getResults_cons, List.length_cons, List.length_cons, ih]

theorem fetchLoop_snapshot {σ : Type} (kvGet : GetOp σ) (keys : List GoString) (s : σ)
    (exported : List KVExport) :
    (fetchLoop kvGet keys s exported).1.2
      = exported ++ (keys.zip (getResults kvGet keys s)).filterMap recordOf := by
  induction keys generalizing s exported with
  | nil => simp [fetchLoop, getResults]
  | cons key keys ih =>
    rw [getResults_cons]
    simp only [fetchLoop, List.zip_cons_cons, List.filterMap_cons]
    rw [ih]
    cases h : (kvGet s key).2 <;> simp [recordOf, h]

theorem filterMap_recordOf_all_found (l : List (GoString × GetResult))
    (h : ∀ p ∈ l, ∃ v, p.2 = GetResult.found v) :
    (l.filterMap recordOf).map fetched = l := by
  induction l with
  | nil => rfl
  | cons p l ih =>
    obtain ⟨v, hv⟩ := h p (List.mem_cons_self _ _)
    obtain ⟨k, r⟩ := p
    simp only at hv
    subst hv
    simp only [List.filterMap_cons, recordOf, List.map_cons, fetched]
    rw [ih (fun q hq => h q (List.mem_cons_of_mem _ hq))]

theorem filterMap_recordOf_one_error (l : List (GoString × GetResult)) (j : Nat)
    (hj : ∃ k, l[j]? = some (k, GetResult.error))
    (hrest : ∀ i, i ≠ j → ∀ p, l[i]? = some p → ∃ v, p.2 = GetResult.found v) :
    (l.filterMap recordOf).map fetched = l.eraseIdx j := by
  induction l generalizing j with
  | nil => simp
  | cons p l ih =>
    cases j with
    | zero =>
      obtain ⟨k, hk⟩ := hj
      simp only [List.getElem?_cons_zero, Option.some.injEq] at hk
      subst hk
      simp only [List.filterMap_cons, recordOf, List.eraseIdx_cons_zero]
      apply filterMap_recordOf_all_found
      intro q hq
      obtain ⟨i, hi⟩ := List.getElem?_of_mem hq
      exact hrest (i + 1) (by omega) q (by simpa using hi)
    | succ j =>
      obtain ⟨v, hv⟩ := hrest 0 (by omega) p (by simp)
      obtain ⟨k, r⟩ := p
      simp only at hv
      subst hv
      simp only [List.filterMap_cons, recordOf, List.map_cons, fetched, List.eraseIdx_cons_succ]
      rw [ih j (by simpa using hj)
        (fun i hi q hq => hrest (i + 1) (by omega) q (by simpa using hq))]

theorem map_fst_eraseIdx {α β : Type} (l : List (α × β)) (j : Nat) :
    (l.eraseIdx j).map Prod.fst = (l.map Prod.fst).eraseIdx j := by
  induction l generalizing j with
  | nil => rfl
  | cons p l ih =>
    cases j with
    | zero => rfl
    | succ j => simp [ih]

theorem inScope_self (fromPrefix value : GoString) :
    inScope fromPrefix (KVExport.mk fromPrefix value) = true :=
  (inScope_iff_starts _ _).2 (List.prefix_refl _)

theorem rewriteKey_self (fromPrefix toPrefix : GoString) :
    rewriteKey fromPrefix toPrefix fromPrefix = specDestination toPrefix [] := by
  have h := rewriteKey_append fromPrefix toPrefix []
  rwa [List.append_nil] at h

theorem importToLocal_single {σ : Type} (kvPut : PutOp σ) (s : σ) (item : KVExport)
    (fromPrefix toPrefix : GoString) (h : inScope fromPrefix item = true) :
    importToLocal kvPut s [item] fromPrefix toPrefix
      = importLoop kvPut fromPrefix toPrefix 1 0 [item] s := by
  simp [importToLocal, filterLoop, h]

theorem not_slash_prefix_of_head (k : GoString) (h : k.head? ≠ some slash) : ¬ [slash] <+: k := by
  intro hp
  obtain ⟨t, rfl⟩ := hp
  exact h rfl

theorem destPairs_no_leading_slash (fromPrefix toPrefix : GoString) (items : List KVExport)
    (p : GoString × GoString) (hp : p ∈ destPairs fromPrefix toPrefix items) :
    ¬ [slash] <+: p.1 := by
  unfold destPairs at hp
  obtain ⟨r, _, hr⟩ := List.mem_filterMap.1 hp
  cases h : rewriteKey fromPrefix toPrefix r.Key with
  | none => simp [h] at hr
  | some d =>
    simp only [h, Option.map_some', Option.some.injEq] at hr
    subst hr
    exact not_slash_prefix_of_head _ (rewriteKey_head _ _ _ _ h)

theorem dropWhile_slash_idem (l : GoString) :
    (l.dropWhile (fun b => decide (b = slash))).dropWhile (fun b => decide (b = slash))
      = l.dropWhile (fun b => decide (b = slash)) := by
  induction l with
  | nil => rfl
  | cons b l ih =>
    by_cases h : b = slash
    · simpa [List.dropWhile, h] using ih
    · simp [List.dropWhile, h]

theorem destPairs_append (fromPrefix toPrefix : GoString) (xs ys : List KVExport) :
    destPairs fromPrefix toPrefix (xs ++ ys)
      = destPairs fromPrefix toPrefix xs ++ destPairs fromPrefix toPrefix ys := by
  unfold destPairs
  exact List.filterMap_append _ _ _

theorem rewriteKey_of_inScope (fromPrefix toPrefix : GoString) (r : KVExport)
    (h : inScope fromPrefix r = true) :
    rewriteKey fromPrefix toPrefix r.Key
      = specDestination toPrefix (r.Key.drop fromPrefix.length) := by
  obtain ⟨rest, hrest⟩ := (inScope_iff_starts _ _).1 h
  rw [← hrest, rewriteKey_append, List.drop_left]

theorem destPairs_filter_inScope (fromPrefix toPrefix : GoString) (data : List KVExport) :
    destPairs fromPrefix toPrefix (data.filter (inScope fromPrefix))
      = (data.filter (inScope fromPrefix)).filterMap
          (fun r => (specDestination toPrefix (r.Key.drop fromPrefix.length)).map
            (fun d => (d, r.Value))) := by
  induction data with
  | nil => rfl
  | cons item data ih =>
    by_cases h : inScope fromPrefix item = true
    · simp only [List.filter_cons, h, if_true, List.filterMap_cons]
      rw [← ih]
      simp only [destPairs, List.filterMap_cons, rewriteKey_of_inScope _ _ _ h]
    · simp only [List.filter_cons, h]
      exact ih

theorem jsonString_ascii (s : GoString) (h : ∀ b ∈ s, b.val < 0x80) : jsonString s = s := by
  unfold jsonString
  induction s with
  | nil => rfl
  | cons b s ih =>
    have hb := h b (List.mem_cons_self _ _)
    simp only [jsonStringLoop, DecodeRuneInString, if_pos hb]
    rw [ih (fun c hc => h c (List.mem_cons_of_mem _ hc))]

/-! ## The claims -/

/-- C1: for a record that passes selection, the key is `fromPrefix ++ rest`
(with `rest` the key itself when `fromPrefix` is empty), and the import computes
the destination as the contract says: with `pre` the `toPrefix` without leading
slashes, the record is skipped when `pre ++ rest` is empty, and otherwise the
single `Put` gets `pre ++ rest` without leading slashes.  Key
`serviceA/db/host` with `fromPrefix = serviceA/` and `toPrefix = localA/` is
written to `localA/db/host`. -/
theorem C1_destination_key {σ : Type} (kvPut : PutOp σ) (s : σ)
    (fromPrefix toPrefix key value : GoString)
    (hsel : inScope fromPrefix (KVExport.mk key value) = true) :
    (∃ rest, key = fromPrefix ++ rest ∧ (fromPrefix = [] → rest = key)
      ∧ rewriteKey fromPrefix toPrefix key = specDestination toPrefix rest
      ∧ putCalls (importToLocal kvPut s [KVExport.mk key value] fromPrefix toPrefix).2
          = (specDestination toPrefix rest).toList.map (fun d => (d, value)))
    ∧ putCalls (importToLocal kvPut s [KVExport.mk (utf8 "serviceA/db/host") (utf8 "x")]
          (utf8 "serviceA/") (utf8 "localA/")).2 = [(utf8 "localA/db/host", utf8 "x")] := by
  constructor
  · obtain ⟨rest, hrest⟩ := (inScope_iff_starts _ _).1 hsel
    simp only at hrest
    subst hrest
    refine ⟨rest, rfl, ?_, rewriteKey_append _ _ _, ?_⟩
    · intro h
      subst h
      rfl
    · rw [putCalls_importToLocal]
      simp only [List.filter_cons, hsel, if_true, List.filter_nil, destPairs,
        List.filterMap_cons, List.filterMap_nil, rewriteKey_append]
      cases specDestination toPrefix rest <;> rfl
  · rw [putCalls_importToLocal]
    decide

/-- Witness of C1 at key `serviceA/db/host`, value `x`. -/
theorem C1_destination_key_witness :
    inScope (utf8 "serviceA/") (KVExport.mk (utf8 "serviceA/db/host") (utf8 "x")) = true
    ∧ ((∃ rest, utf8 "serviceA/db/host" = utf8 "serviceA/" ++ rest
        ∧ (utf8 "serviceA/" = [] → rest = utf8 "serviceA/db/host")
        ∧ rewriteKey (utf8 "serviceA/") (utf8 "localA/") (utf8 "serviceA/db/host")
            = specDestination (utf8 "localA/") rest
        ∧ putCalls (importToLocal (fun (u : Unit) _ _ => (u, false)) ()
            [KVExport.mk (utf8 "serviceA/db/host") (utf8 "x")]
            (utf8 "serviceA/") (utf8 "localA/")).2
            = (specDestination (utf8 "localA/") rest).toList.map (fun d => (d, utf8 "x")))
      ∧ putCalls (importToLocal (fun (u : Unit) _ _ => (u, false)) ()
          [KVExport.mk (utf8 "serviceA/db/host") (utf8 "x")]
          (utf8 "serviceA/") (utf8 "localA/")).2 = [(utf8 "localA/db/host", utf8 "x")]) :=
  ⟨by decide, C1_destination_key _ () _ _ _ _ (by decide)⟩

/-- C2: the records the filter loop passes on are exactly the records of the
snapshot whose key starts with `fromPrefix` (all of them when `fromPrefix` is
empty), in snapshot order; the other records have no effect on the run, which
behaves as on the snapshot without them. -/
theorem C2_selection {σ : Type} (kvPut : PutOp σ) (s : σ) (data : List KVExport)
    (fromPrefix toPrefix : GoString) :
    filterLoop fromPrefix data []
        = data.filter (fun r => decide (fromPrefix = [] ∨ fromPrefix <+: r.Key))
    ∧ importToLocal kvPut s data fromPrefix toPrefix
        = importToLocal kvPut s
            (data.filter (fun r => decide (fromPrefix = [] ∨ fromPrefix <+: r.Key)))
            fromPrefix toPrefix := by
  have hf : (fun r => decide (fromPrefix = [] ∨ fromPrefix <+: r.Key)) = inScope fromPrefix := by
    funext r
    rw [Bool.eq_iff_iff, decide_eq_true_eq, inScope_iff]
  rw [hf]
  refine ⟨by rw [filterLoop_eq, List.nil_append], ?_⟩
  unfold importToLocal
  simp only [filterLoop_eq, List.nil_append, List.filter_filter, Bool.and_self]

/-- C3 (fails on the code): a folder key `serviceA/` imported with
`fromPrefix = serviceA` and no `toPrefix` has remainder `/`, which passes the
empty-key guard and is then trimmed to the empty string: `Put` is called with
the empty key. -/
theorem C3_put_with_empty_key {σ : Type} (kvPut : PutOp σ) (s : σ) :
    putCalls (importToLocal kvPut s [KVExport.mk (utf8 "serviceA/") (utf8 "x")]
      (utf8 "serviceA") []).2 = [([], utf8 "x")] := by
  rw [putCalls_importToLocal]
  decide

/-- C4: no key handed to `Put` starts with `/`.  `TrimLeft` removes every
leading slash: `//team/` contributes `team/`, and leading slashes of the
remainder of the key are removed as well. -/
theorem C4_no_leading_slash {σ : Type} (kvPut : PutOp σ) (s : σ) (data : List KVExport)
    (fromPrefix toPrefix : GoString) :
    (∀ p ∈ putCalls (importToLocal kvPut s data fromPrefix toPrefix).2, ¬ [slash] <+: p.1)
    ∧ TrimLeft (utf8 "//team/") slash = utf8 "team/"
    ∧ putCalls (importToLocal kvPut s [KVExport.mk (utf8 "svc/x") (utf8 "1")]
        (utf8 "svc/") (utf8 "//team/")).2 = [(utf8 "team/x", utf8 "1")]
    ∧ putCalls (importToLocal kvPut s [KVExport.mk (utf8 "svc///x") (utf8 "1")]
        (utf8 "svc") []).2 = [(utf8 "x", utf8 "1")] := by
  refine ⟨?_, by decide, ?_, ?_⟩
  · intro p hp
    rw [putCalls_importToLocal] at hp
    exact destPairs_no_leading_slash _ _ _ p hp
  · rw [putCalls_importToLocal]
    decide
  · rw [putCalls_importToLocal]
    decide

/-- Witness of C4 on the snapshot `a/b = 1` imported under `/new/`. -/
theorem C4_no_leading_slash_witness :
    (utf8 "new/a/b", utf8 "1") ∈ putCalls (importToLocal (fun (u : Unit) _ _ => (u, false)) ()
        [KVExport.mk (utf8 "a/b") (utf8 "1")] [] (utf8 "/new/")).2
    ∧ ¬ [slash] <+: utf8 "new/a/b" :=
  ⟨by decide,
   (C4_no_leading_slash (fun (u : Unit) _ _ => (u, false)) ()
      [KVExport.mk (utf8 "a/b") (utf8 "1")] [] (utf8 "/new/")).1
      (utf8 "new/a/b", utf8 "1") (by decide)⟩

/-- C5: a record whose key equals `fromPrefix`, imported with an empty
`toPrefix`, is skipped: its rewritten key is empty, the loop body logs the skip
and continues, and the record adds no `Put` to a run, wherever it stands in the
snapshot.  Key `serviceA/` with `fromPrefix = serviceA/` is never written. -/
theorem C5_exact_match_skipped {σ : Type} (kvPut : PutOp σ) (s : σ)
    (before after : List KVExport) (fromPrefix value : GoString) :
    rewriteKey fromPrefix [] fromPrefix = none
    ∧ importToLocal kvPut s [KVExport.mk fromPrefix value] fromPrefix []
        = (s, [Event.logSkip fromPrefix])
    ∧ putCalls (importToLocal kvPut s (before ++ KVExport.mk fromPrefix value :: after)
          fromPrefix []).2
        = putCalls (importToLocal kvPut s (before ++ after) fromPrefix []).2
    ∧ importToLocal kvPut s [KVExport.mk (utf8 "serviceA/") (utf8 "x")] (utf8 "serviceA/") []
        = (s, [Event.logSkip (utf8 "serviceA/")]) := by
  have hnone : ∀ p : GoString, rewriteKey p [] p = none := by
    intro p
    rw [rewriteKey_self]
    rfl
  have hsingle : ∀ p v : GoString,
      importToLocal kvPut s [KVExport.mk p v] p [] = (s, [Event.logSkip p]) := by
    intro p v
    rw [importToLocal_single _ _ _ _ _ (inScope_self p v)]
    simp [importLoop, hnone]
  refine ⟨hnone _, hsingle _ _, ?_, hsingle _ _⟩
  rw [putCalls_importToLocal, putCalls_importToLocal]
  simp only [List.filter_append, List.filter_cons, inScope_self, if_true, destPairs_append]
  congr 1
  simp [destPairs, hnone]

/-- C6 as stated fails: with `fromPrefix = serviceA/` and the non-empty
`toPrefix = /`, the record with key `serviceA/` is skipped and no `Put` is
issued. -/
theorem C6_counterexample :
    utf8 "serviceA/" ≠ [] ∧ utf8 "/" ≠ []
    ∧ rewriteKey (utf8 "serviceA/") (utf8 "/") (utf8 "serviceA/") = none
    ∧ importToLocal (fun (u : Unit) _ _ => (u, false)) ()
        [KVExport.mk (utf8 "serviceA/") (utf8 "x")] (utf8 "serviceA/") (utf8 "/")
        = ((), [Event.logSkip (utf8 "serviceA/")]) := by
  decide

/-- C6 amended: for every non-empty `fromPrefix` and every `toPrefix` with at
least one byte other than `/`, a record whose key equals `fromPrefix` is not
skipped: exactly one `Put` is issued for it, and its key is the non-empty
`toPrefix` without leading slashes. -/
theorem C6_exact_match_written {σ : Type} (kvPut : PutOp σ) (s : σ)
    (fromPrefix toPrefix value : GoString)
    (hfrom : fromPrefix ≠ []) (hto : ∃ b ∈ toPrefix, b ≠ slash) :
    inScope fromPrefix (KVExport.mk fromPrefix value) = true
    ∧ TrimLeft toPrefix slash ≠ []
    ∧ rewriteKey fromPrefix toPrefix fromPrefix = some (TrimLeft toPrefix slash)
    ∧ putCalls (importToLocal kvPut s [KVExport.mk fromPrefix value] fromPrefix toPrefix).2
        = [(TrimLeft toPrefix slash, value)] := by
  have _ := hfrom
  have hne : TrimLeft toPrefix slash ≠ [] := by
    rw [TrimLeft_eq_dropWhile]
    intro h
    obtain ⟨b, hb, hbs⟩ := hto
    exact hbs ((dropWhile_slash_eq_nil_iff toPrefix).1 h b hb)
  have hrw : rewriteKey fromPrefix toPrefix fromPrefix = some (TrimLeft toPrefix slash) := by
    rw [rewriteKey_self]
    rw [TrimLeft_eq_dropWhile] at hne ⊢
    simp only [specDestination, List.append_nil, hne, if_false, dropWhile_slash_idem]
  refine ⟨inScope_self _ _, hne, hrw, ?_⟩
  rw [putCalls_importToLocal]
  simp [destPairs, inScope_self, hrw]

/-- Witness of C6 amended at `fromPrefix = serviceA/`, `toPrefix = /localA/`. -/
theorem C6_exact_match_written_witness :
    utf8 "serviceA/" ≠ [] ∧ (∃ b ∈ utf8 "/localA/", b ≠ slash)
    ∧ (inScope (utf8 "serviceA/") (KVExport.mk (utf8 "serviceA/") (utf8 "x")) = true
      ∧ TrimLeft (utf8 "/localA/") slash ≠ []
      ∧ rewriteKey (utf8 "serviceA/") (utf8 "/localA/") (utf8 "serviceA/")
          = some (TrimLeft (utf8 "/localA/") slash)
      ∧ putCalls (importToLocal (fun (u : Unit) _ _ => (u, false)) ()
          [KVExport.mk (utf8 "serviceA/") (utf8 "x")] (utf8 "serviceA/") (utf8 "/localA/")).2
          = [(TrimLeft (utf8 "/localA/") slash, utf8 "x")]) :=
  ⟨by decide, by decide,
   C6_exact_match_written _ () (utf8 "serviceA/") (utf8 "/localA/") (utf8 "x")
     (by decide) (by decide)⟩

/-- C7 as stated fails: with an empty `fromPrefix`, the record with the empty
key is selected and is skipped for emptiness under `toPrefix = /`, which is not
the empty string. -/
theorem C7_counterexample :
    inScope [] (KVExport.mk [] (utf8 "x")) = true
    ∧ rewriteKey [] (utf8 "/") [] = none
    ∧ importToLocal (fun (u : Unit) _ _ => (u, false)) ()
        [KVExport.mk [] (utf8 "x")] [] (utf8 "/") = ((), [Event.logSkip []])
    ∧ ¬ (utf8 "/" = [] ∧ ([] : GoString) = []) := by
  decide

/-- C7 amended: with an empty `fromPrefix`, every record is selected and
nothing is stripped from its key, and it is skipped for emptiness exactly when
its key is empty and `toPrefix` has no byte other than `/` (as when `toPrefix`
is empty). -/
theorem C7_empty_from_prefix (key toPrefix value : GoString) :
    inScope [] (KVExport.mk key value) = true
    ∧ stripFrom [] key = key
    ∧ (rewriteKey [] toPrefix key = none ↔ (key = [] ∧ ∀ b ∈ toPrefix, b = slash)) := by
  refine ⟨rfl, rfl, ?_⟩
  have h := rewriteKey_eq_none_iff [] toPrefix key
  rw [List.nil_append] at h
  rw [h]
  exact And.comm

/-- C8: whatever the backend does on `Put` (any state, any outcome of any
call), the `Put` calls of a run are exactly, in snapshot order, one call per
record whose key starts with `fromPrefix` and whose destination is not empty:
the key is the destination of the rewrite contract for the key without its
front `fromPrefix`, the value is the record's value unchanged.  So two runs
against backends with different `Put` outcomes issue the same calls.  Records
`a/b = 1`, `c/d = 2` with an empty `fromPrefix` and `toPrefix = /new/` give
`Put(new/a/b, 1)` then `Put(new/c/d, 2)`; records `serviceA/db/host = x`,
`other/k = y`, `serviceA/ = z`, `serviceA/port = w` with
`fromPrefix = serviceA/` and no `toPrefix` give `Put(db/host, x)` then
`Put(port, w)`. -/
theorem C8_put_sequence {σ : Type} (kvPut : PutOp σ) (s : σ) (data : List KVExport)
    (fromPrefix toPrefix : GoString) :
    putCalls (importToLocal kvPut s data fromPrefix toPrefix).2
        = (data.filter (fun r => decide (fromPrefix = [] ∨ fromPrefix <+: r.Key))).filterMap
            (fun r => (specDestination toPrefix (r.Key.drop fromPrefix.length)).map
              (fun d => (d, r.Value)))
    ∧ (∀ (τ : Type) (kvPut₂ : PutOp τ) (s₂ : τ),
        putCalls (importToLocal kvPut₂ s₂ data fromPrefix toPrefix).2
          = putCalls (importToLocal kvPut s data fromPrefix toPrefix).2)
    ∧ putCalls (importToLocal kvPut s
          [KVExport.mk (utf8 "a/b") (utf8 "1"), KVExport.mk (utf8 "c/d") (utf8 "2")]
          [] (utf8 "/new/")).2
        = [(utf8 "new/a/b", utf8 "1"), (utf8 "new/c/d", utf8 "2")]
    ∧ putCalls (importToLocal kvPut s
          [KVExport.mk (utf8 "serviceA/db/host") (utf8 "x"),
           KVExport.mk (utf8 "other/k") (utf8 "y"),
           KVExport.mk (utf8 "serviceA/") (utf8 "z"),
           KVExport.mk (utf8 "serviceA/port") (utf8 "w")]
          (utf8 "serviceA/") []).2
        = [(utf8 "db/host", utf8 "x"), (utf8 "port", utf8 "w")]
    ∧ putCalls (importToLocal kvPut s
          [KVExport.mk (utf8 "serviceA/db/host") (utf8 "x"),
           KVExport.mk (utf8 "other/k") (utf8 "y"),
           KVExport.mk (utf8 "serviceA/") (utf8 "z")]
          (utf8 "serviceA/") (utf8 "localA/")).2
        = [(utf8 "localA/db/host", utf8 "x"), (utf8 "localA/", utf8 "z")] := by
  have hf : (fun r => decide (fromPrefix = [] ∨ fromPrefix <+: r.Key)) = inScope fromPrefix := by
    funext r
    rw [Bool.eq_iff_iff, decide_eq_true_eq, inScope_iff]
  refine ⟨?_, ?_, ?_, ?_, ?_⟩
  · rw [putCalls_importToLocal, hf, destPairs_filter_inScope]
  · intro τ kvPut₂ s₂
    rw [putCalls_importToLocal, putCalls_importToLocal]
  · rw [putCalls_importToLocal]
    decide
  · rw [putCalls_importToLocal]
    decide
  · rw [putCalls_importToLocal]
    decide

/-- C9 as stated fails: the listing is `a`, `b`, `c`; the fetch of `a` fails
with an error, `b` is reported as not found (no error), `c` is fetched.  Exactly
one fetch fails, yet the snapshot of the backup and of the export has one record,
not two.  Moreover a fetched value that is not valid UTF-8 (the byte `FF`) is
not written as fetched: the snapshot holds U+FFFD in its place. -/
theorem C9_counterexample :
    getResults (fun (u : Unit) key => (u,
        if key = utf8 "a" then GetResult.error
        else if key = utf8 "b" then GetResult.notFound
        else GetResult.found (utf8 "v"))) [utf8 "a", utf8 "b", utf8 "c"] ()
      = [GetResult.error, GetResult.notFound, GetResult.found (utf8 "v")]
    ∧ backupLocal (some ()) (fun u => (u, some [utf8 "a", utf8 "b", utf8 "c"]))
        (fun (u : Unit) key => (u,
          if key = utf8 "a" then GetResult.error
          else if key = utf8 "b" then GetResult.notFound
          else GetResult.found (utf8 "v"))) false
      = Outcome.completed [KVExport.mk (utf8 "c") (utf8 "v")] 1
    ∧ exportStaging (some ()) (fun u => (u, some [utf8 "a", utf8 "b", utf8 "c"]))
        (fun (u : Unit) key => (u,
          if key = utf8 "a" then GetResult.error
          else if key = utf8 "b" then GetResult.notFound
          else GetResult.found (utf8 "v"))) false
      = Outcome.completed [KVExport.mk (utf8 "c") (utf8 "v")] 1
    ∧ [KVExport.mk (utf8 "c") (utf8 "v")].length ≠ [utf8 "a", utf8 "b", utf8 "c"].length - 1
    ∧ backupLocal (some ()) (fun u => (u, some [utf8 "a", utf8 "b"]))
        (fun (u : Unit) key => (u,
          if key = utf8 "a" then GetResult.error else GetResult.found [0xFF])) false
      = Outcome.completed [KVExport.mk (utf8 "b") [0xEF, 0xBF, 0xBD]] 1
    ∧ exportStaging (some ()) (fun u => (u, some [utf8 "a", utf8 "b"]))
        (fun (u : Unit) key => (u,
          if key = utf8 "a" then GetResult.error else GetResult.found [0xFF])) false
      = Outcome.completed [KVExport.mk (utf8 "b") [0xEF, 0xBF, 0xBD]] 1 := by
  decide

/-- C9 amended: when the listing succeeds with `N` keys, the fetch of exactly
one listed key (the one at position `j`) fails with an error, every other fetch
returns an existing entry, and the file is written without error, then
`backupLocal`, and identically `exportStaging`, completes; the slice it built
holds exactly the listed keys without the one at position `j`, in listing
order, each with its fetched value, and the snapshot written holds these `N - 1`
records in that order as JSON strings denote them: every byte of a key or value
that does not start a valid UTF-8 encoding replaced by U+FFFD, and a record
whose key and value are ASCII written as it is. -/
theorem C9_one_failed_fetch {σ : Type} (client s₁ : σ)
    (kvKeys : σ → σ × Option (List GoString)) (kvGet : GetOp σ) (keys : List GoString) (j : Nat)
    (hkeys : kvKeys client = (s₁, some keys))
    (hj : j < keys.length)
    (herr : (getResults kvGet keys s₁)[j]? = some GetResult.error)
    (hrest : ∀ i, i < keys.length → i ≠ j →
      ∃ v, (getResults kvGet keys s₁)[i]? = some (GetResult.found v)) :
    ∃ (exported snapshot : List KVExport),
      backupLocal (some client) kvKeys kvGet false = Outcome.completed snapshot (keys.length - 1)
      ∧ exportStaging (some client) kvKeys kvGet false
          = Outcome.completed snapshot (keys.length - 1)
      ∧ snapshot.length = keys.length - 1
      ∧ snapshot
          = exported.map (fun r => KVExport.mk (jsonString r.Key) (jsonString r.Value))
      ∧ exported.map KVExport.Key = keys.eraseIdx j
      ∧ exported.map fetched = (keys.zip (getResults kvGet keys s₁)).eraseIdx j
      ∧ (∀ r ∈ exported, (∀ b ∈ r.Key, b.val < 0x80) → (∀ b ∈ r.Value, b.val < 0x80) →
          KVExport.mk (jsonString r.Key) (jsonString r.Value) = r) := by
  have hlen := getResults_length kvGet keys s₁
  have hzlen : (keys.zip (getResults kvGet keys s₁)).length = keys.length := by
    rw [List.length_zip, hlen, Nat.min_self]
  have hmain : ((keys.zip (getResults kvGet keys s₁)).filterMap recordOf).map fetched
      = (keys.zip (getResults kvGet keys s₁)).eraseIdx j := by
    apply filterMap_recordOf_one_error
    · refine ⟨keys[j], ?_⟩
      rw [List.getElem?_zip_eq_some]
      exact ⟨List.getElem?_eq_getElem hj, herr⟩
    · intro i hi p hp
      obtain ⟨k, r⟩ := p
      rw [List.getElem?_zip_eq_some] at hp
      have hik : i < keys.length := by
        by_contra hge
        rw [List.getElem?_eq_none (by omega)] at hp
        exact absurd hp.1 (by simp)
      obtain ⟨v, hv⟩ := hrest i hik hi
      rw [hv] at hp
      exact ⟨v, (Option.some.inj hp.2).symm⟩
  have hsnap : (fetchLoop kvGet keys s₁ []).1.2
      = (keys.zip (getResults kvGet keys s₁)).filterMap recordOf := by
    rw [fetchLoop_snapshot, List.nil_append]
  have hl : ((keys.zip (getResults kvGet keys s₁)).filterMap recordOf).length
      = keys.length - 1 := by
    have := congrArg List.length hmain
    rw [List.length_map, List.length_eraseIdx, hzlen] at this
    simpa [hj] using this
  refine ⟨(keys.zip (getResults kvGet keys s₁)).filterMap recordOf,
    MarshalIndent ((keys.zip (getResults kvGet keys s₁)).filterMap recordOf),
    ?_, ?_, ?_, rfl, ?_, hmain, ?_⟩
  · simp only [backupLocal, hkeys, hsnap, hl]
    rfl
  · simp only [exportStaging, hkeys, hsnap, hl]
    rfl
  · rw [MarshalIndent, List.length_map, hl]
  · have hk : ∀ l : List KVExport, l.map KVExport.Key = (l.map fetched).map Prod.fst := by
      intro l
      rw [List.map_map]
      rfl
    rw [hk, hmain, map_fst_eraseIdx, List.map_fst_zip]
    omega
  · intro r _ hkey hval
    rw [jsonString_ascii _ hkey, jsonString_ascii _ hval]

/-- Witness of C9 amended: the listing is `a`, `b`, the fetch of `a` fails and
`b` is fetched. -/
theorem C9_one_failed_fetch_witness :
    (fun (u : Unit) => (u, some [utf8 "a", utf8 "b"])) () = ((), some [utf8 "a", utf8 "b"])
    ∧ 0 < [utf8 "a", utf8 "b"].length
    ∧ (getResults getFailsOnA [utf8 "a", utf8 "b"] ())[0]? = some GetResult.error
    ∧ (∃ (exported snapshot : List KVExport),
        backupLocal (some ()) (fun u => (u, some [utf8 "a", utf8 "b"])) getFailsOnA false
          = Outcome.completed snapshot ([utf8 "a", utf8 "b"].length - 1)
        ∧ exportStaging (some ()) (fun u => (u, some [utf8 "a", utf8 "b"])) getFailsOnA false
          = Outcome.completed snapshot ([utf8 "a", utf8 "b"].length - 1)
        ∧ snapshot.length = [utf8 "a", utf8 "b"].length - 1
        ∧ snapshot
            = exported.map (fun r => KVExport.mk (jsonString r.Key) (jsonString r.Value))
        ∧ exported.map KVExport.Key = [utf8 "a", utf8 "b"].eraseIdx 0
        ∧ exported.map fetched
            = ([utf8 "a", utf8 "b"].zip
                (getResults getFailsOnA [utf8 "a", utf8 "b"] ())).eraseIdx 0
        ∧ (∀ r ∈ exported, (∀ b ∈ r.Key, b.val < 0x80) → (∀ b ∈ r.Value, b.val < 0x80) →
            KVExport.mk (jsonString r.Key) (jsonString r.Value) = r)) :=
  ⟨rfl, by decide, by decide,
   C9_one_failed_fetch () () (fun u => (u, some [utf8 "a", utf8 "b"])) getFailsOnA
     [utf8 "a", utf8 "b"] 0 rfl (by decide) (by decide)
     (fun i hi hne => by
       have h1 : i = 1 := by
         simp only [List.length_cons, List.length_nil] at hi
         omega
       subst h1
       exact ⟨utf8 "v", by decide⟩)⟩

/-- C10: with the destination store a map on which `Put` is an upsert and a
failed `Put` changes nothing, a first import in which any of the `Put` calls
fail, followed by a fully successful import of the same snapshot, leaves the
store that one fully successful import gives; so a successful import run twice
gives the store of one run.  With two records mapped to the same destination
key, the later one wins. -/
theorem C10_rerun_safe (fails : Nat → Bool) (st : Store) (data : List KVExport)
    (fromPrefix toPrefix : GoString) :
    importInto (fun _ => false) (importInto fails st data fromPrefix toPrefix)
        data fromPrefix toPrefix
      = importInto (fun _ => false) st data fromPrefix toPrefix
    ∧ importInto (fun _ => false) (importInto (fun _ => false) st data fromPrefix toPrefix)
        data fromPrefix toPrefix
      = importInto (fun _ => false) st data fromPrefix toPrefix
    ∧ importInto (fun _ => false) (fun _ => none)
        [KVExport.mk (utf8 "/k") (utf8 "1"), KVExport.mk (utf8 "k") (utf8 "2")] [] []
        (utf8 "k") = some (utf8 "2") := by
  have h : ∀ f : Nat → Bool,
      importInto (fun _ => false) (importInto f st data fromPrefix toPrefix)
        data fromPrefix toPrefix
      = importInto (fun _ => false) st data fromPrefix toPrefix := by
    intro f
    rw [importInto_ok, importInto_ok]
    apply applyPuts_congr
    intro k hk
    exact importInto_untouched f st data fromPrefix toPrefix k hk
  exact ⟨h fails, h _, by decide⟩

end ConsulImporter
